import Mathlib

/-!
Shallow embedding of the godot-bevy synchronization core
(src/godot-bevy/src/plugins/collisions.rs and core.rs) and proofs of the
spec's testable properties about it.

Entities and node handles are identified by natural numbers: `Entity` mirrors
bevy's opaque entity id, `GodotNodeHandle` mirrors the comparable, hashable
node reference (two handles are equal iff they refer to the same node).
-/

namespace GodotBevy

abbrev Entity := Nat

abbrev GodotNodeHandle := Nat

/-- Embeds `CollisionEventType` from collisions.rs: Started | Ended. -/
inductive CollisionEventType where
  | Started
  | Ended
  deriving DecidableEq, Repr

/-- Embeds `CollisionEvent` from collisions.rs: an event kind plus origin and target handles. -/
structure CollisionEvent where
  event_type : CollisionEventType
  origin : GodotNodeHandle
  target : GodotNodeHandle
  deriving DecidableEq, Repr

/-- The `Collisions` component: a persistent ordered sequence of colliding entities
and the transient recent-collisions sequence. -/
structure Collisions where
  colliding_entities : List Entity
  recent_collisions : List Entity
  deriving DecidableEq, Repr

/-- One ECS entity as seen by the two queries of `update_godot_collisions`:
its id, its `GodotNodeHandle` component, and its `Collisions` component when it
has one (`none` = the entity carries no `Collisions`). -/
structure EntityEntry where
  id : Entity
  handle : GodotNodeHandle
  collisions : Option Collisions
  deriving DecidableEq, Repr

/-- The first loop of `update_godot_collisions` (lines 81–83): every entity with a
`Collisions` component gets its `recent_collisions` replaced by the empty vec. -/
def resetRecent (w : List EntityEntry) : List EntityEntry :=
  w.map fun e =>
    { e with collisions := e.collisions.map fun c => { c with recent_collisions := [] } }

/-- Embeds `all_entities.iter().find_map(...)` (lines 88–94): the id of the first entity whose
handle equals the event's target handle. -/
def findTargetId (w : List EntityEntry) (h : GodotNodeHandle) : Option Entity :=
  (w.find? fun e => decide (e.handle = h)).map (·.id)

/-- Position of the first entity that carries a `Collisions` component and whose handle
equals the given one: the entry `entities.iter_mut().find_map(...)` (lines 96–102)
yields mutable access to. -/
def originIdx : List EntityEntry → GodotNodeHandle → Option Nat
  | [], _ => none
  | e :: rest, h =>
    match e.collisions with
    | some _ => if e.handle = h then some 0 else (originIdx rest h).map (· + 1)
    | none => (originIdx rest h).map (· + 1)

/-- The match on `event.event_type` (lines 109–115): Started pushes the target onto
both vecs, Ended retains everything different from the target in the persistent vec. -/
def applyToCollisions (ty : CollisionEventType) (t : Entity) (c : Collisions) : Collisions :=
  match ty with
  | .Started =>
      { colliding_entities := c.colliding_entities ++ [t]
        recent_collisions := c.recent_collisions ++ [t] }
  | .Ended =>
      { c with colliding_entities := c.colliding_entities.filter fun x => decide (x ≠ t) }

/-- Write through the mutable borrow: replace the `Collisions` of the first entity that
has one and whose handle matches. -/
def updateOrigin : List EntityEntry → GodotNodeHandle → (Collisions → Collisions) →
    List EntityEntry
  | [], _, _ => []
  | e :: rest, h, f =>
    match e.collisions with
    | some c =>
        if e.handle = h then { e with collisions := some (f c) } :: rest
        else e :: updateOrigin rest h f
    | none => e :: updateOrigin rest h f

/-- One iteration of the event loop (lines 85–116): resolve target and origin;
if either fails, `continue` (the event is dropped); otherwise update the origin's
`Collisions` according to the event type. -/
def applyEvent (w : List EntityEntry) (ev : CollisionEvent) : List EntityEntry :=
  match findTargetId w ev.target, originIdx w ev.origin with
  | some t, some _ => updateOrigin w ev.origin (applyToCollisions ev.event_type t)
  | _, _ => w

/-- The event loop over all drained events. -/
def applyAll (evs : List CollisionEvent) (w : List EntityEntry) : List EntityEntry :=
  evs.foldl applyEvent w

/-- Embeds `update_godot_collisions`: reset every transient set, then apply this cycle's
events in order. -/
def update_godot_collisions (evs : List CollisionEvent) (w : List EntityEntry) :
    List EntityEntry :=
  applyAll evs (resetRecent w)

/-- Spec-side net effect of a signal sequence on one (origin, target) pair: a Started
makes the target present, an Ended removes it; `init` is whether it was present before
the sequence. -/
def netPresent (init : Bool) (tys : List CollisionEventType) : Bool :=
  tys.foldl (fun _ ty => match ty with | .Started => true | .Ended => false) init

/-- An event for a fixed (origin, target) handle pair. -/
def mkPairEvent (oH tH : GodotNodeHandle) (ty : CollisionEventType) : CollisionEvent :=
  { event_type := ty, origin := oH, target := tH }

/-- A two-entity world: the origin entity carries a `Collisions` component, the target
entity only a handle. -/
def pairWorld (oId tId : Entity) (oH tH : GodotNodeHandle) (c : Collisions) :
    List EntityEntry :=
  [⟨oId, oH, some c⟩, ⟨tId, tH, none⟩]

/-- Run the collision-update system once per element of `runs`, each run draining the
given sequence of event types for the fixed pair. -/
def runPair (oId tId : Entity) (oH tH : GodotNodeHandle) (c : Collisions)
    (runs : List (List CollisionEventType)) : List EntityEntry :=
  runs.foldl (fun w tys => update_godot_collisions (tys.map (mkPairEvent oH tH)) w)
    (pairWorld oId tId oH tH c)

/-- The targets of the Started events of one cycle that are applied with the entity at
position `i` as resolved origin: both handles resolve, and the origin resolves to
position `i`. Resolution only reads ids, handles and `Collisions`-presence, all of
which the system never changes, so it is evaluated against the cycle's initial world. -/
def startedTargetsFor (w : List EntityEntry) (i : Nat) (evs : List CollisionEvent) :
    List Entity :=
  evs.filterMap fun ev =>
    match ev.event_type with
    | .Started =>
        match findTargetId w ev.target, originIdx w ev.origin with
        | some t, some j => if j = i then some t else none
        | _, _ => none
    | .Ended => none

/-- The shape of an entry: everything event resolution can observe (id, handle, whether
a `Collisions` component is present). -/
def entryShape (e : EntityEntry) : Entity × GodotNodeHandle × Bool :=
  (e.id, e.handle, e.collisions.isSome)

/-- The transient recent-collisions list of the entity at position `i` (`none` when the
position is out of range, `some none` when the entity has no `Collisions` component). -/
def recentOf (w : List EntityEntry) (i : Nat) : Option (Option (List Entity)) :=
  (w[i]?).map fun e => e.collisions.map (·.recent_collisions)

end GodotBevy

namespace GodotBevy

/-! ### core.rs: transform sync configuration -/

/-- Embeds `TransformSyncMode` from core.rs. -/
inductive TransformSyncMode where
  | Disabled
  | OneWay
  | TwoWay
  deriving DecidableEq, Repr

/-- Embeds `impl Default for TransformSyncMode`: `OneWay`. -/
instance : Inhabited TransformSyncMode := ⟨.OneWay⟩

/-- Embeds `GodotTransformConfig` from core.rs. -/
structure GodotTransformConfig where
  sync_mode : TransformSyncMode
  deriving DecidableEq, Repr

/-- Embeds `impl Default for GodotTransformConfig`: `sync_mode: OneWay`. -/
instance : Inhabited GodotTransformConfig := ⟨⟨.OneWay⟩⟩

def GodotTransformConfig.disabled : GodotTransformConfig := ⟨.Disabled⟩

def GodotTransformConfig.one_way : GodotTransformConfig := ⟨.OneWay⟩

def GodotTransformConfig.two_way : GodotTransformConfig := ⟨.TwoWay⟩

/-! ### core.rs: SceneTreeComponentRegistry

`TypeId` is modelled as a natural number; a `ComponentInserter` closure is an
abstract value of a type parameter `ι` (for `register<C>` the caller's
default-construction inserter for C, for `register_with_init` the custom one).
`add_to_entity` is modelled by the invocation log it produces: each inserter
invoked appends itself to the entity's log, in table order. -/

structure SceneTreeComponentRegistry (ι : Type) where
  components : List (Nat × ι)
  deriving DecidableEq, Repr

namespace SceneTreeComponentRegistry

/-- Embeds `register<C>`: no-op when the type id is already in the table, otherwise push the
default-construction inserter. -/
def register (r : SceneTreeComponentRegistry ι) (tid : Nat) (defaultIns : ι) :
    SceneTreeComponentRegistry ι :=
  if r.components.any fun p => decide (p.1 = tid) then r
  else { components := r.components ++ [(tid, defaultIns)] }

/-- Embeds `register_with_init<C, F>`: no-op when the type id is already in the table,
otherwise push the custom inserter. -/
def register_with_init (r : SceneTreeComponentRegistry ι) (tid : Nat) (ins : ι) :
    SceneTreeComponentRegistry ι :=
  if r.components.any fun p => decide (p.1 = tid) then r
  else { components := r.components ++ [(tid, ins)] }

/-- Embeds `add_to_entity`: invoke every registered inserter on the entity, in table order
(each invocation appends the inserter to the entity's log). -/
def add_to_entity (r : SceneTreeComponentRegistry ι) (e : List ι) : List ι :=
  r.components.foldl (fun acc p => acc ++ [p.2]) e

end SceneTreeComponentRegistry

/-- Which of the two registration entry points a call uses. -/
inductive RegForm where
  | defaultForm
  | customForm
  deriving DecidableEq, Repr

/-- Perform one registration call of the given form. -/
def regCall (f : RegForm) (r : SceneTreeComponentRegistry ι) (tid : Nat) (ins : ι) :
    SceneTreeComponentRegistry ι :=
  match f with
  | .defaultForm => r.register tid ins
  | .customForm => r.register_with_init tid ins

/-- A sequence of registration calls, applied left to right. -/
def applyCalls (r : SceneTreeComponentRegistry ι) (calls : List (RegForm × Nat × ι)) :
    SceneTreeComponentRegistry ι :=
  calls.foldl (fun acc c => regCall c.1 acc c.2.1 c.2.2) r

/-- The calls of a sequence that a registry whose table already holds the type ids in
`seen` actually appends: the first call for each not-yet-seen type id. -/
def keptCalls (seen : List Nat) : List (Nat × ι) → List (Nat × ι)
  | [] => []
  | (t, i) :: rest =>
      if t ∈ seen then keptCalls seen rest
      else (t, i) :: keptCalls (t :: seen) rest

end GodotBevy

namespace GodotBevy

/-! ### Event plumbing (C5)

Bevy's `Events<CollisionEvent>` resource keeps two buffers: the previous
frame's (`events_a`) and the current frame's (`events_b`); a reader that has
read nothing yet sees `events_a ++ events_b`. `event_update_system` is the
generic bookkeeping step that ages buffers: the current buffer becomes the
previous one and events already one frame old are dropped.
`write_godot_collision_events` drains the channel (`try_iter`) and
`write_batch`es the drained signals into the current buffer; the plugin orders
it `.before(event_update_system)` (collisions.rs lines 40–49), so within one
`PrePhysicsUpdate` run the drain-and-translate step runs first and the aging
step second. -/

structure EventBuffers where
  events_a : List CollisionEvent
  events_b : List CollisionEvent
  deriving DecidableEq, Repr

/-- Embeds `EventWriter::write_batch`: append the batch to the current frame's buffer. -/
def write_batch (bufs : EventBuffers) (batch : List CollisionEvent) : EventBuffers :=
  { bufs with events_b := bufs.events_b ++ batch }

/-- Embeds `event_update_system`: age the buffers — drop last frame's, demote the current. -/
def event_update_system (bufs : EventBuffers) : EventBuffers :=
  { events_a := bufs.events_b, events_b := [] }

/-- What a fresh reader sees in the `Events` resource. -/
def visibleEvents (bufs : EventBuffers) : List CollisionEvent :=
  bufs.events_a ++ bufs.events_b

/-- Outcome of one `PrePhysicsUpdate` run of the event plumbing: the events visible to
readers during the tick (after the drain wrote its batch), and the buffers left for the
next tick (after the aging step). -/
structure TickResult where
  visible : List CollisionEvent
  bufs : EventBuffers
  deriving DecidableEq, Repr

/-- One tick of the event plumbing in the order the plugin declares: drain the signals
queued so far into the current buffer, then run the aging step. -/
def runTick (bufs : EventBuffers) (drained : List CollisionEvent) : TickResult :=
  let written := write_batch bufs drained
  { visible := visibleEvents written, bufs := event_update_system written }

end GodotBevy

namespace GodotBevy

/-- C8: the three transform sync modes, their defaults, and the three constructors. -/
theorem transform_config_modes :
    (∀ m : TransformSyncMode,
        m = TransformSyncMode.Disabled ∨ m = TransformSyncMode.OneWay ∨
          m = TransformSyncMode.TwoWay) ∧
    (default : TransformSyncMode) = TransformSyncMode.OneWay ∧
    (default : GodotTransformConfig).sync_mode = TransformSyncMode.OneWay ∧
    GodotTransformConfig.disabled.sync_mode = TransformSyncMode.Disabled ∧
    GodotTransformConfig.one_way.sync_mode = TransformSyncMode.OneWay ∧
    GodotTransformConfig.two_way.sync_mode = TransformSyncMode.TwoWay := by
  refine ⟨fun m => ?_, rfl, rfl, rfl, rfl, rfl⟩
  cases m
  · exact Or.inl rfl
  · exact Or.inr (Or.inl rfl)
  · exact Or.inr (Or.inr rfl)

/-- The duplicate check of `register`/`register_with_init` tests exactly membership of
the type id among the registered type ids. -/
theorem registry_any_iff (r : SceneTreeComponentRegistry ι) (tid : Nat) :
    (r.components.any fun p => decide (p.1 = tid)) = true ↔
      tid ∈ r.components.map Prod.fst := by
  simp only [List.any_eq_true, decide_eq_true_eq, List.mem_map]

/-- Both registration forms behave identically on the table: no-op when the type id is
registered, append otherwise. -/
theorem regCall_eq (f : RegForm) (r : SceneTreeComponentRegistry ι) (t : Nat) (i : ι) :
    regCall f r t i =
      if t ∈ r.components.map Prod.fst then r
      else { components := r.components ++ [(t, i)] } := by
  by_cases h : t ∈ r.components.map Prod.fst
  · rw [if_pos h]
    have ha : (r.components.any fun p => decide (p.1 = t)) = true := (registry_any_iff r t).2 h
    cases f <;>
      simp [regCall, SceneTreeComponentRegistry.register,
        SceneTreeComponentRegistry.register_with_init, ha]
  · rw [if_neg h]
    have ha : ¬(r.components.any fun p => decide (p.1 = t)) = true := fun hc =>
      h ((registry_any_iff r t).1 hc)
    cases f <;>
      simp [regCall, SceneTreeComponentRegistry.register,
        SceneTreeComponentRegistry.register_with_init, ha]

/-- The function `keptCalls` only looks at membership in the seen list. -/
theorem keptCalls_congr (calls : List (Nat × ι)) :
    ∀ s1 s2 : List Nat, (∀ x, x ∈ s1 ↔ x ∈ s2) →
      keptCalls s1 calls = keptCalls s2 calls := by
  induction calls with
  | nil => intro s1 s2 _; rfl
  | cons c rest ih =>
      intro s1 s2 hs
      obtain ⟨t, i⟩ := c
      by_cases h : t ∈ s1
      · simp only [keptCalls, if_pos h, if_pos ((hs t).1 h)]
        exact ih s1 s2 hs
      · simp only [keptCalls, if_neg h, if_neg (fun hx => h ((hs t).2 hx))]
        refine congrArg _ (ih (t :: s1) (t :: s2) ?_)
        intro x
        simp only [List.mem_cons, hs x]

/-- Running a sequence of registration calls appends exactly the first call for each
not-yet-registered type id, in call order. -/
theorem applyCalls_components (calls : List (RegForm × Nat × ι)) :
    ∀ r : SceneTreeComponentRegistry ι,
      (applyCalls r calls).components =
        r.components ++ keptCalls (r.components.map Prod.fst) (calls.map (·.2)) := by
  induction calls with
  | nil => intro r; simp [applyCalls, keptCalls]
  | cons c rest ih =>
      intro r
      obtain ⟨f, t, i⟩ := c
      have hstep : applyCalls r ((f, t, i) :: rest) = applyCalls (regCall f r t i) rest := rfl
      rw [hstep, regCall_eq]
      by_cases h : t ∈ r.components.map Prod.fst
      · rw [if_pos h, ih r]
        simp only [List.map_cons, keptCalls, if_pos h]
      · rw [if_neg h, ih { components := r.components ++ [(t, i)] }]
        simp only [List.map_cons, keptCalls, if_neg h, List.map_append, List.map_cons,
          List.map_nil]
        rw [keptCalls_congr _ (r.components.map Prod.fst ++ [t]) (t :: r.components.map Prod.fst)
          (by intro x; simp [List.mem_append, List.mem_cons, or_comm])]
        simp [List.append_assoc]

/-- The operation `add_to_entity` invokes exactly the registered inserters, in table order, each once. -/
theorem add_to_entity_eq (r : SceneTreeComponentRegistry ι) (e : List ι) :
    r.add_to_entity e = e ++ r.components.map Prod.snd := by
  show List.foldl (fun acc p => acc ++ [p.2]) e r.components = _
  induction r.components generalizing e with
  | nil => simp
  | cons p rest ih => simp [List.foldl_cons, ih, List.append_assoc]

/-- C7: applying the registry invokes every registered initializer exactly once against
the entity, in the order the component types were registered; a registration call
appends to the table (first call per type id wins), so registration order is preserved
across any sequence of `register` and `register_with_init` calls. -/
theorem add_to_entity_invokes_in_registration_order (ι : Type)
    (r : SceneTreeComponentRegistry ι) (calls : List (RegForm × Nat × ι)) (e : List ι) :
    (applyCalls r calls).components =
      r.components ++ keptCalls (r.components.map Prod.fst) (calls.map (·.2)) ∧
    (applyCalls r calls).add_to_entity e =
      e ++ (applyCalls r calls).components.map Prod.snd :=
  ⟨applyCalls_components calls r, add_to_entity_eq _ e⟩

/-- C4: registering the same component type a second time, through either entry point,
is a no-op — the registry retains exactly one initializer for the type, the first one
registered, so applying the registry invokes exactly one initializer for that type. -/
theorem register_duplicate_noop (ι : Type) (r : SceneTreeComponentRegistry ι) (tid : Nat)
    (i1 i2 : ι) (f1 f2 : RegForm) (h : tid ∉ r.components.map Prod.fst) :
    regCall f2 (regCall f1 r tid i1) tid i2 = regCall f1 r tid i1 ∧
    (regCall f1 r tid i1).components.filter (fun p => decide (p.1 = tid)) = [(tid, i1)] ∧
    ((regCall f2 (regCall f1 r tid i1) tid i2).components.map Prod.fst).count tid = 1 ∧
    (regCall f2 (regCall f1 r tid i1) tid i2).add_to_entity [] =
      (regCall f1 r tid i1).add_to_entity [] := by
  have h1 : regCall f1 r tid i1 =
      ({ components := r.components ++ [(tid, i1)] } : SceneTreeComponentRegistry ι) := by
    rw [regCall_eq, if_neg h]
  have hmem : tid ∈ (regCall f1 r tid i1).components.map Prod.fst := by
    rw [h1]; simp
  have h2 : regCall f2 (regCall f1 r tid i1) tid i2 = regCall f1 r tid i1 := by
    rw [regCall_eq, if_pos hmem]
  refine ⟨h2, ?_, ?_, by rw [h2]⟩
  · rw [h1]
    have hnil : r.components.filter (fun p => decide (p.1 = tid)) = [] := by
      rw [List.filter_eq_nil_iff]
      intro p hp
      simp only [decide_eq_true_eq]
      exact fun he => h (List.mem_map.2 ⟨p, hp, he⟩)
    simp [List.filter_append, hnil]
  · rw [h2, h1]
    simp [List.count_append, List.count_eq_zero.2 h]

/-- C4 witness at a concrete input: an empty registry, type id 0, inserters 1 and 2,
registered first through `register` and then through `register_with_init`. -/
theorem register_duplicate_noop_witness :
    regCall .customForm
        (regCall .defaultForm (⟨[]⟩ : SceneTreeComponentRegistry Nat) 0 1) 0 2 =
      regCall .defaultForm (⟨[]⟩ : SceneTreeComponentRegistry Nat) 0 1 ∧
    ((regCall .defaultForm (⟨[]⟩ : SceneTreeComponentRegistry Nat) 0 1).components.filter
        (fun p => decide (p.1 = 0))) = [(0, 1)] ∧
    (((regCall .customForm
          (regCall .defaultForm (⟨[]⟩ : SceneTreeComponentRegistry Nat) 0 1)
          0 2).components.map Prod.fst).count 0) = 1 ∧
    (regCall .customForm
          (regCall .defaultForm (⟨[]⟩ : SceneTreeComponentRegistry Nat) 0 1)
          0 2).add_to_entity [] =
      (regCall .defaultForm (⟨[]⟩ : SceneTreeComponentRegistry Nat) 0 1).add_to_entity [] :=
  register_duplicate_noop Nat ⟨[]⟩ 0 1 2 .defaultForm .customForm (by simp)

/-- C5: the drain-and-translate step runs before the event-aging step, so every signal
queued before the drain (the carryover from after the previous drain plus this tick's
pre-drain arrivals) is visible within the same tick; signals queued after the drain are
absent from this tick's visible events and appear in the next tick's; nothing queued is
ever lost. -/
theorem collision_events_same_tick_visibility (bufs : EventBuffers)
    (carry pre post pre2 : List CollisionEvent) :
    (runTick bufs (carry ++ pre)).visible =
      bufs.events_a ++ bufs.events_b ++ (carry ++ pre) ∧
    carry ++ pre ⊆ (runTick bufs (carry ++ pre)).visible ∧
    (runTick (runTick bufs (carry ++ pre)).bufs (post ++ pre2)).visible =
      bufs.events_b ++ (carry ++ pre) ++ (post ++ pre2) ∧
    post ⊆ (runTick (runTick bufs (carry ++ pre)).bufs (post ++ pre2)).visible := by
  refine ⟨?_, ?_, ?_, ?_⟩
  · simp [runTick, write_batch, event_update_system, visibleEvents, List.append_assoc]
  · intro x hx
    simp only [runTick, write_batch, event_update_system, visibleEvents, List.mem_append]
    simp only [List.mem_append] at hx
    tauto
  · simp [runTick, write_batch, event_update_system, visibleEvents, List.append_assoc]
  · intro x hx
    simp only [runTick, write_batch, event_update_system, visibleEvents, List.mem_append]
    tauto

end GodotBevy

namespace GodotBevy

/-! ### Helper lemmas about `update_godot_collisions` -/

/-- No option shifted by one is position zero. -/
theorem optSucc_ne_zero (o : Option Nat) : ¬o.map (· + 1) = some 0 := by
  cases o <;> simp

/-- An option shifted by one hits a successor position iff the option hits the
predecessor. -/
theorem optSucc_eq_succ (o : Option Nat) (k : Nat) :
    o.map (· + 1) = some (k + 1) ↔ o = some k := by
  cases o <;> simp

/-- Pointwise description of `updateOrigin`: the entry at the resolved origin position
gets its `Collisions` transformed, every other position is untouched. -/
theorem updateOrigin_getElem (w : List EntityEntry) (h : GodotNodeHandle)
    (f : Collisions → Collisions) :
    ∀ i, (updateOrigin w h f)[i]? =
      if originIdx w h = some i then
        (w[i]?).map fun e => { e with collisions := e.collisions.map f }
      else w[i]? := by
  induction w with
  | nil => intro i; simp [updateOrigin, originIdx]
  | cons e rest ih =>
      intro i
      obtain ⟨eid, eh, ec⟩ := e
      cases ec with
      | some c =>
          by_cases hh : eh = h
          · subst hh
            cases i with
            | zero => simp [updateOrigin, originIdx]
            | succ k => simp [updateOrigin, originIdx]
          · simp only [updateOrigin, originIdx, if_neg hh]
            cases i with
            | zero =>
                rw [if_neg (optSucc_ne_zero _)]
                simp
            | succ k =>
                simp only [List.getElem?_cons_succ]
                rw [ih k]
                by_cases hro : originIdx rest h = some k
                · rw [if_pos hro, if_pos ((optSucc_eq_succ _ k).2 hro)]
                · rw [if_neg hro, if_neg fun hx => hro ((optSucc_eq_succ _ k).1 hx)]
      | none =>
          simp only [updateOrigin, originIdx]
          cases i with
          | zero =>
              rw [if_neg (optSucc_ne_zero _)]
              simp
          | succ k =>
              simp only [List.getElem?_cons_succ]
              rw [ih k]
              by_cases hro : originIdx rest h = some k
              · rw [if_pos hro, if_pos ((optSucc_eq_succ _ k).2 hro)]
              · rw [if_neg hro, if_neg fun hx => hro ((optSucc_eq_succ _ k).1 hx)]

/-- When no entity resolves as origin, `updateOrigin` changes nothing. -/
theorem updateOrigin_none (w : List EntityEntry) (h : GodotNodeHandle)
    (f : Collisions → Collisions) (hn : originIdx w h = none) :
    updateOrigin w h f = w := by
  apply List.ext_getElem?
  intro i
  rw [updateOrigin_getElem w h f i, hn]
  simp

/-- The resolved origin position holds an entity with the searched handle and a
`Collisions` component. -/
theorem originIdx_handle (w : List EntityEntry) (h : GodotNodeHandle) :
    ∀ j, originIdx w h = some j →
      ∃ e, w[j]? = some e ∧ e.handle = h ∧ e.collisions.isSome = true := by
  induction w with
  | nil => intro j hj; simp [originIdx] at hj
  | cons e rest ih =>
      intro j hj
      obtain ⟨eid, eh, ec⟩ := e
      cases ec with
      | some c =>
          by_cases hh : eh = h
          · simp only [originIdx, if_pos hh] at hj
            cases hj
            exact ⟨⟨eid, eh, some c⟩, by simp, hh, rfl⟩
          · simp only [originIdx, if_neg hh] at hj
            cases j with
            | zero => exact absurd hj (optSucc_ne_zero _)
            | succ k =>
                obtain ⟨e', he', hh', hs'⟩ := ih k ((optSucc_eq_succ _ k).1 hj)
                exact ⟨e', by simpa using he', hh', hs'⟩
      | none =>
          simp only [originIdx] at hj
          cases j with
          | zero => exact absurd hj (optSucc_ne_zero _)
          | succ k =>
              obtain ⟨e', he', hh', hs'⟩ := ih k ((optSucc_eq_succ _ k).1 hj)
              exact ⟨e', by simpa using he', hh', hs'⟩

/-- The write `updateOrigin` never changes ids, handles or `Collisions`-presence. -/
theorem updateOrigin_shape (w : List EntityEntry) (h : GodotNodeHandle)
    (f : Collisions → Collisions) :
    (updateOrigin w h f).map entryShape = w.map entryShape := by
  induction w with
  | nil => rfl
  | cons e rest ih =>
      obtain ⟨eid, eh, ec⟩ := e
      cases ec with
      | some c =>
          by_cases hh : eh = h
          · subst hh; simp [updateOrigin, entryShape]
          · simp [updateOrigin, if_neg hh, entryShape, ih]
      | none => simp [updateOrigin, entryShape, ih]

/-- The reset `resetRecent` never changes ids, handles or `Collisions`-presence. -/
theorem resetRecent_shape (w : List EntityEntry) :
    (resetRecent w).map entryShape = w.map entryShape := by
  induction w with
  | nil => rfl
  | cons e rest ih =>
      obtain ⟨eid, eh, ec⟩ := e
      cases ec <;> simp_all [resetRecent, entryShape]

/-- Processing one event never changes ids, handles or `Collisions`-presence. -/
theorem applyEvent_shape (w : List EntityEntry) (ev : CollisionEvent) :
    (applyEvent w ev).map entryShape = w.map entryShape := by
  unfold applyEvent
  cases findTargetId w ev.target with
  | none => rfl
  | some t =>
      cases originIdx w ev.origin with
      | none => rfl
      | some j => exact updateOrigin_shape ..

/-- Processing any event sequence never changes ids, handles or
`Collisions`-presence. -/
theorem applyAll_shape (evs : List CollisionEvent) :
    ∀ w, (applyAll evs w).map entryShape = w.map entryShape := by
  induction evs with
  | nil => intro w; rfl
  | cons ev rest ih =>
      intro w
      calc (applyAll rest (applyEvent w ev)).map entryShape
          = (applyEvent w ev).map entryShape := ih _
        _ = w.map entryShape := applyEvent_shape ..

/-- Target resolution only reads the shape of the world. -/
theorem findTargetId_eq_of_shape (w1 : List EntityEntry) :
    ∀ w2 : List EntityEntry, w1.map entryShape = w2.map entryShape →
      ∀ h, findTargetId w1 h = findTargetId w2 h := by
  induction w1 with
  | nil =>
      intro w2 hs h
      cases w2 with
      | nil => rfl
      | cons e rest => simp at hs
  | cons e rest ih =>
      intro w2 hs h
      cases w2 with
      | nil => simp at hs
      | cons e2 rest2 =>
          simp only [List.map_cons, List.cons.injEq] at hs
          obtain ⟨hsh, hst⟩ := hs
          have hid : e.id = e2.id := congrArg Prod.fst hsh
          have hha : e.handle = e2.handle := congrArg (Prod.fst ∘ Prod.snd) hsh
          by_cases hh : e.handle = h
          · simp [findTargetId, List.find?_cons, hh, hha ▸ hh, hid, ← hha]
          · have hh2 : ¬e2.handle = h := fun hx => hh (hha ▸ hx)
            simp only [findTargetId, List.find?_cons]
            rw [show (decide (e.handle = h)) = false by simp [hh],
              show (decide (e2.handle = h)) = false by simp [hh2]]
            exact ih rest2 hst h

/-- Origin resolution only reads the shape of the world. -/
theorem originIdx_eq_of_shape (w1 : List EntityEntry) :
    ∀ w2 : List EntityEntry, w1.map entryShape = w2.map entryShape →
      ∀ h, originIdx w1 h = originIdx w2 h := by
  induction w1 with
  | nil =>
      intro w2 hs h
      cases w2 with
      | nil => rfl
      | cons e rest => simp at hs
  | cons e rest ih =>
      intro w2 hs h
      cases w2 with
      | nil => simp at hs
      | cons e2 rest2 =>
          simp only [List.map_cons, List.cons.injEq] at hs
          obtain ⟨hsh, hst⟩ := hs
          have hha : e.handle = e2.handle := congrArg (Prod.fst ∘ Prod.snd) hsh
          have hso : e.collisions.isSome = e2.collisions.isSome :=
            congrArg (Prod.snd ∘ Prod.snd) hsh
          have htail := ih rest2 hst h
          cases hc : e.collisions with
          | some c =>
              cases hc2 : e2.collisions with
              | some c2 =>
                  simp only [originIdx, hc, hc2, hha, htail]
              | none => rw [hc, hc2] at hso; simp at hso
          | none =>
              cases hc2 : e2.collisions with
              | some c2 => rw [hc, hc2] at hso; simp at hso
              | none => simp only [originIdx, hc, hc2, htail]

end GodotBevy

namespace GodotBevy

/-- Target resolution is unchanged by processing an event. -/
theorem findTargetId_applyEvent (w : List EntityEntry) (ev : CollisionEvent)
    (h : GodotNodeHandle) : findTargetId (applyEvent w ev) h = findTargetId w h :=
  findTargetId_eq_of_shape (applyEvent w ev) w (applyEvent_shape w ev) h

/-- Origin resolution is unchanged by processing an event. -/
theorem originIdx_applyEvent (w : List EntityEntry) (ev : CollisionEvent)
    (h : GodotNodeHandle) : originIdx (applyEvent w ev) h = originIdx w h :=
  originIdx_eq_of_shape (applyEvent w ev) w (applyEvent_shape w ev) h

/-- Applied-Started-targets only read the shape of the world. -/
theorem startedTargetsFor_shape (w1 w2 : List EntityEntry)
    (hs : w1.map entryShape = w2.map entryShape) (i : Nat) (evs : List CollisionEvent) :
    startedTargetsFor w1 i evs = startedTargetsFor w2 i evs := by
  simp only [startedTargetsFor, findTargetId_eq_of_shape w1 w2 hs,
    originIdx_eq_of_shape w1 w2 hs]

/-- A `filterMap` over a cons splits as the singleton plus the rest. -/
theorem filterMap_singleton_append (f : α → Option β) (a : α) (l : List α) :
    List.filterMap f (a :: l) = List.filterMap f [a] ++ List.filterMap f l := by
  cases hf : f a <;> simp [List.filterMap_cons, hf]

/-- Applied-Started-targets of a cons split as head plus tail. -/
theorem startedTargetsFor_cons (w : List EntityEntry) (i : Nat) (ev : CollisionEvent)
    (rest : List CollisionEvent) :
    startedTargetsFor w i (ev :: rest) =
      startedTargetsFor w i [ev] ++ startedTargetsFor w i rest :=
  filterMap_singleton_append ..

/-- Effect of a single event on the transient list at position `i`: the targets the
event contributes to that entity are appended. -/
theorem recentOf_applyEvent (w : List EntityEntry) (ev : CollisionEvent) (i : Nat) :
    recentOf (applyEvent w ev) i =
      (recentOf w i).map fun o => o.map fun l => l ++ startedTargetsFor w i [ev] := by
  unfold applyEvent
  cases hT : findTargetId w ev.target with
  | none =>
      have hs : startedTargetsFor w i [ev] = [] := by
        cases hty : ev.event_type <;> simp [startedTargetsFor, hty, hT]
      cases hw : w[i]? with
      | none => simp [recentOf, hw, hs]
      | some e => cases hc : e.collisions <;> simp [recentOf, hw, hc, hs]
  | some t =>
      cases hO : originIdx w ev.origin with
      | none =>
          have hs : startedTargetsFor w i [ev] = [] := by
            cases hty : ev.event_type <;> simp [startedTargetsFor, hty, hT, hO]
          cases hw : w[i]? with
          | none => simp [recentOf, hw, hs]
          | some e => cases hc : e.collisions <;> simp [recentOf, hw, hc, hs]
      | some j =>
          simp only [recentOf, updateOrigin_getElem w ev.origin _ i, hO]
          by_cases hji : j = i
          · subst hji
            rw [if_pos rfl]
            cases hw : w[j]? with
            | none => simp
            | some e =>
                cases hc : e.collisions with
                | none => simp [hc]
                | some c =>
                    cases hty : ev.event_type with
                    | Started =>
                        have hs : startedTargetsFor w j [ev] = [t] := by
                          simp [startedTargetsFor, hty, hT, hO]
                        simp [hs, hc, applyToCollisions, hty]
                    | Ended =>
                        have hs : startedTargetsFor w j [ev] = [] := by
                          simp [startedTargetsFor, hty]
                        simp [hs, hc, applyToCollisions, hty]
          · rw [if_neg fun hx => hji (Option.some.inj hx)]
            have hs : startedTargetsFor w i [ev] = [] := by
              cases hty : ev.event_type <;> simp [startedTargetsFor, hty, hT, hO, hji]
            cases hw : w[i]? with
            | none => simp [hw, hs]
            | some e => cases hc : e.collisions <;> simp [hw, hc, hs]

/-- Effect of the whole event loop on the transient list at position `i`: exactly the
applied Started targets of the loop are appended, in order. -/
theorem recentOf_applyAll (evs : List CollisionEvent) :
    ∀ (w : List EntityEntry) (i : Nat),
      recentOf (applyAll evs w) i =
        (recentOf w i).map fun o => o.map fun l => l ++ startedTargetsFor w i evs := by
  induction evs with
  | nil =>
      intro w i
      have hs : startedTargetsFor w i [] = [] := rfl
      cases hw : w[i]? with
      | none => simp [applyAll, recentOf, hw]
      | some e => cases hc : e.collisions <;> simp [applyAll, recentOf, hw, hc, hs]
  | cons ev rest ih =>
      intro w i
      have hstep : applyAll (ev :: rest) w = applyAll rest (applyEvent w ev) := rfl
      rw [hstep, ih (applyEvent w ev) i,
        startedTargetsFor_shape (applyEvent w ev) w (applyEvent_shape w ev) i rest,
        recentOf_applyEvent w ev i, startedTargetsFor_cons w i ev rest]
      cases hw : recentOf w i with
      | none => simp
      | some o => cases o <;> simp [List.append_assoc]

/-- C2: after a run of the collision-update system, the transient recent-collisions
list of the entity at any position holds exactly the targets of the Started events
applied during that same cycle with that entity as resolved origin — the reset at the
start of the cycle discards everything from prior cycles. -/
theorem recent_collisions_exactly_started_this_cycle (evs : List CollisionEvent)
    (w : List EntityEntry) (i : Nat) :
    recentOf (update_godot_collisions evs w) i =
      (w[i]?).map fun e => e.collisions.map fun _ => startedTargetsFor w i evs := by
  unfold update_godot_collisions
  rw [recentOf_applyAll evs (resetRecent w) i,
    startedTargetsFor_shape (resetRecent w) w (resetRecent_shape w) i evs]
  cases hw : w[i]? with
  | none => simp [recentOf, resetRecent, List.getElem?_map, hw]
  | some e =>
      cases hc : e.collisions <;>
        simp [recentOf, resetRecent, List.getElem?_map, hw, hc]

end GodotBevy

namespace GodotBevy

/-- Processing one event of the fixed pair on the pair world updates the origin's
component as `applyToCollisions` describes. -/
theorem applyEvent_pair (oId tId : Entity) (oH tH : GodotNodeHandle) (c : Collisions)
    (ty : CollisionEventType) (hne : oH ≠ tH) :
    applyEvent (pairWorld oId tId oH tH c) (mkPairEvent oH tH ty) =
      pairWorld oId tId oH tH (applyToCollisions ty tId c) := by
  have hT : findTargetId (pairWorld oId tId oH tH c) tH = some tId := by
    simp [findTargetId, pairWorld, hne]
  have hO : originIdx (pairWorld oId tId oH tH c) oH = some 0 := by
    simp [originIdx, pairWorld]
  unfold applyEvent
  simp only [mkPairEvent]
  rw [hT, hO]
  simp [updateOrigin, pairWorld]

/-- The event loop of one run on the pair world folds `applyToCollisions` over the
signal sequence. -/
theorem applyAll_pair (oId tId : Entity) (oH tH : GodotNodeHandle) (hne : oH ≠ tH) :
    ∀ (tys : List CollisionEventType) (c : Collisions),
      applyAll (tys.map (mkPairEvent oH tH)) (pairWorld oId tId oH tH c) =
        pairWorld oId tId oH tH
          (tys.foldl (fun c2 ty => applyToCollisions ty tId c2) c) := by
  intro tys
  induction tys with
  | nil => intro c; rfl
  | cons ty rest ih =>
      intro c
      have h1 : applyAll ((ty :: rest).map (mkPairEvent oH tH)) (pairWorld oId tId oH tH c) =
          applyAll (rest.map (mkPairEvent oH tH))
            (applyEvent (pairWorld oId tId oH tH c) (mkPairEvent oH tH ty)) := rfl
      rw [h1, applyEvent_pair oId tId oH tH c ty hne, ih (applyToCollisions ty tId c)]
      rfl

/-- Reset on the pair world empties the origin's transient list. -/
theorem resetRecent_pair (oId tId : Entity) (oH tH : GodotNodeHandle) (c : Collisions) :
    resetRecent (pairWorld oId tId oH tH c) =
      pairWorld oId tId oH tH { c with recent_collisions := [] } := rfl

/-- One run of the collision-update system on the pair world. -/
theorem update_pair (oId tId : Entity) (oH tH : GodotNodeHandle) (hne : oH ≠ tH)
    (tys : List CollisionEventType) (c : Collisions) :
    update_godot_collisions (tys.map (mkPairEvent oH tH)) (pairWorld oId tId oH tH c) =
      pairWorld oId tId oH tH
        (tys.foldl (fun c2 ty => applyToCollisions ty tId c2)
          { c with recent_collisions := [] }) := by
  unfold update_godot_collisions
  rw [resetRecent_pair, applyAll_pair oId tId oH tH hne tys]

/-- Membership of the fixed target in the persistent list after folding a signal
sequence equals the spec-side net effect of the sequence. -/
theorem mem_foldl_applyToCollisions (tId : Entity) :
    ∀ (tys : List CollisionEventType) (c : Collisions),
      (tId ∈ (tys.foldl (fun c2 ty => applyToCollisions ty tId c2) c).colliding_entities)
        ↔ netPresent (decide (tId ∈ c.colliding_entities)) tys = true := by
  intro tys
  induction tys with
  | nil => intro c; simp [netPresent]
  | cons ty rest ih =>
      intro c
      cases ty with
      | Started =>
          have hmem : decide (tId ∈ (applyToCollisions .Started tId c).colliding_entities)
              = true := by simp [applyToCollisions]
          show (tId ∈ (rest.foldl (fun c2 ty => applyToCollisions ty tId c2)
              (applyToCollisions .Started tId c)).colliding_entities) ↔ _
          rw [ih (applyToCollisions .Started tId c), hmem]
          rfl
      | Ended =>
          have hmem : decide (tId ∈ (applyToCollisions .Ended tId c).colliding_entities)
              = false := by simp [applyToCollisions, List.mem_filter]
          show (tId ∈ (rest.foldl (fun c2 ty => applyToCollisions ty tId c2)
              (applyToCollisions .Ended tId c)).colliding_entities) ↔ _
          rw [ih (applyToCollisions .Ended tId c), hmem]
          rfl

/-- Net effect composes over concatenation of signal sequences. -/
theorem netPresent_append (b : Bool) (l1 l2 : List CollisionEventType) :
    netPresent b (l1 ++ l2) = netPresent (netPresent b l1) l2 :=
  List.foldl_append ..

/-- Across any sequence of runs on the pair world, the final world is a pair world
whose origin component contains the target iff the net effect of all signals so far
leaves it present. -/
theorem runPair_spec (oId tId : Entity) (oH tH : GodotNodeHandle) (hne : oH ≠ tH) :
    ∀ (runs : List (List CollisionEventType)) (c : Collisions),
      ∃ cFin : Collisions,
        runPair oId tId oH tH c runs = pairWorld oId tId oH tH cFin ∧
          ((tId ∈ cFin.colliding_entities) ↔
            netPresent (decide (tId ∈ c.colliding_entities)) runs.flatten = true) := by
  intro runs
  induction runs with
  | nil =>
      intro c
      exact ⟨c, rfl, by simp [netPresent]⟩
  | cons tys rest ih =>
      intro c
      have hrw : runPair oId tId oH tH c (tys :: rest) =
          runPair oId tId oH tH
            (tys.foldl (fun c2 ty => applyToCollisions ty tId c2)
              { c with recent_collisions := [] }) rest := by
        unfold runPair
        rw [List.foldl_cons, update_pair oId tId oH tH hne tys c]
      obtain ⟨cFin, h1, h2⟩ :=
        ih (tys.foldl (fun c2 ty => applyToCollisions ty tId c2)
          { c with recent_collisions := [] })
      refine ⟨cFin, hrw ▸ h1, ?_⟩
      rw [h2]
      have hiff := mem_foldl_applyToCollisions tId tys { c with recent_collisions := [] }
      have hb : decide (tId ∈ (tys.foldl (fun c2 ty => applyToCollisions ty tId c2)
          { c with recent_collisions := [] }).colliding_entities)
          = netPresent (decide (tId ∈ c.colliding_entities)) tys := by
        cases hnp : netPresent (decide (tId ∈ c.colliding_entities)) tys <;>
          simp_all
      rw [hb]
      have hfl : (tys :: rest).flatten = tys ++ rest.flatten := rfl
      rw [hfl, netPresent_append]

/-- C1: for every sequence of runs over Started/Ended events of a resolvable
(origin, target) pair, the target is in the origin's persistent colliding list iff the
net effect of the signals so far leaves it present; and an Ended event applied while
the target is absent does not change the origin's persistent list (the run only clears
the transient list). -/
theorem collision_state_matches_net_effect (oId tId : Entity) (oH tH : GodotNodeHandle)
    (c : Collisions) (runs : List (List CollisionEventType)) (hne : oH ≠ tH) :
    (∃ cFin : Collisions,
        runPair oId tId oH tH c runs = pairWorld oId tId oH tH cFin ∧
          ((tId ∈ cFin.colliding_entities) ↔
            netPresent (decide (tId ∈ c.colliding_entities)) runs.flatten = true)) ∧
    (∀ c0 : Collisions, tId ∉ c0.colliding_entities →
        update_godot_collisions [mkPairEvent oH tH .Ended] (pairWorld oId tId oH tH c0) =
          pairWorld oId tId oH tH { c0 with recent_collisions := [] }) := by
  refine ⟨runPair_spec oId tId oH tH hne runs c, ?_⟩
  intro c0 hnot
  have h1 : update_godot_collisions [mkPairEvent oH tH .Ended] (pairWorld oId tId oH tH c0)
      = update_godot_collisions ([CollisionEventType.Ended].map (mkPairEvent oH tH))
        (pairWorld oId tId oH tH c0) := rfl
  rw [h1, update_pair oId tId oH tH hne [CollisionEventType.Ended] c0]
  have hfe : (c0.colliding_entities.filter fun x => decide (x ≠ tId))
      = c0.colliding_entities := by
    apply List.filter_eq_self.2
    intro a ha
    simp only [decide_eq_true_eq]
    exact fun hx => hnot (hx ▸ ha)
  show pairWorld oId tId oH tH
      (applyToCollisions CollisionEventType.Ended tId { c0 with recent_collisions := [] }) =
    pairWorld oId tId oH tH { c0 with recent_collisions := [] }
  apply congrArg
  have h3 : applyToCollisions CollisionEventType.Ended tId { c0 with recent_collisions := [] }
      = ⟨c0.colliding_entities.filter fun x => decide (x ≠ tId), []⟩ := rfl
  rw [h3, hfe]

/-- C1 witness: a concrete pair, empty initial component, a Started run then an
Ended run. -/
theorem collision_state_matches_net_effect_witness :
    (∃ cFin : Collisions,
        runPair 0 1 2 3 ⟨[], []⟩ [[.Started], [.Ended]] = pairWorld 0 1 2 3 cFin ∧
          (((1 : Entity) ∈ cFin.colliding_entities) ↔
            netPresent (decide ((1 : Entity) ∈ (⟨[], []⟩ : Collisions).colliding_entities))
              [[CollisionEventType.Started], [CollisionEventType.Ended]].flatten = true)) ∧
    (∀ c0 : Collisions, (1 : Entity) ∉ c0.colliding_entities →
        update_godot_collisions [mkPairEvent 2 3 .Ended] (pairWorld 0 1 2 3 c0) =
          pairWorld 0 1 2 3 { c0 with recent_collisions := [] }) :=
  collision_state_matches_net_effect 0 1 2 3 ⟨[], []⟩ [[.Started], [.Ended]] (by decide)

end GodotBevy

namespace GodotBevy

/-- C3: for a resolvable event, a Started appends the target to both the persistent and
the transient list of the origin's component (duplicates accumulate), an Ended filters
the target out of the persistent list only and leaves the transient list untouched; no
other entity is modified. -/
theorem started_appends_ended_removes_persistent_only (w : List EntityEntry)
    (ev : CollisionEvent) (i : Nat) (t : Entity)
    (hO : originIdx w ev.origin = some i) (hT : findTargetId w ev.target = some t) :
    (applyEvent w ev)[i]? =
      (w[i]?).map (fun e =>
        { e with collisions := e.collisions.map fun c =>
            match ev.event_type with
            | .Started =>
                { colliding_entities := c.colliding_entities ++ [t]
                  recent_collisions := c.recent_collisions ++ [t] }
            | .Ended =>
                { c with colliding_entities :=
                    c.colliding_entities.filter fun x => decide (x ≠ t) } }) ∧
    (∀ k, k ≠ i → (applyEvent w ev)[k]? = w[k]?) := by
  have hfun : applyToCollisions ev.event_type t = fun c =>
      match ev.event_type with
      | .Started =>
          { colliding_entities := c.colliding_entities ++ [t]
            recent_collisions := c.recent_collisions ++ [t] }
      | .Ended =>
          { c with colliding_entities :=
              c.colliding_entities.filter fun x => decide (x ≠ t) } := by
    funext c
    cases ev.event_type <;> rfl
  have happ : applyEvent w ev = updateOrigin w ev.origin (applyToCollisions ev.event_type t) := by
    unfold applyEvent
    rw [hT, hO]
  constructor
  · rw [happ, updateOrigin_getElem w ev.origin _ i, if_pos hO, hfun]
  · intro k hk
    rw [happ, updateOrigin_getElem w ev.origin _ k, hO,
      if_neg fun hx => hk (Option.some.inj hx).symm]

/-- C3 witness: a Started event on a concrete two-entity world. -/
theorem started_appends_ended_removes_persistent_only_witness :
    (applyEvent [⟨0, 5, some ⟨[], []⟩⟩, ⟨1, 6, none⟩] ⟨.Started, 5, 6⟩)[0]? =
      (([⟨0, 5, some ⟨[], []⟩⟩, ⟨1, 6, none⟩] : List EntityEntry)[0]?).map (fun e =>
        { e with collisions := e.collisions.map fun c =>
            match (⟨.Started, 5, 6⟩ : CollisionEvent).event_type with
            | .Started =>
                { colliding_entities := c.colliding_entities ++ [1]
                  recent_collisions := c.recent_collisions ++ [1] }
            | .Ended =>
                { c with colliding_entities :=
                    c.colliding_entities.filter fun x => decide (x ≠ 1) } }) ∧
    (∀ k, k ≠ 0 →
      (applyEvent [⟨0, 5, some ⟨[], []⟩⟩, ⟨1, 6, none⟩] ⟨.Started, 5, 6⟩)[k]? =
        ([⟨0, 5, some ⟨[], []⟩⟩, ⟨1, 6, none⟩] : List EntityEntry)[k]?) :=
  started_appends_ended_removes_persistent_only
    [⟨0, 5, some ⟨[], []⟩⟩, ⟨1, 6, none⟩] ⟨.Started, 5, 6⟩ 0 1 rfl rfl

/-- C9: one Ended event for a resolvable pair leaves zero occurrences of the target in
the origin's persistent list, however many duplicates had accumulated. -/
theorem ended_removes_all_occurrences (w : List EntityEntry) (ev : CollisionEvent)
    (i : Nat) (t : Entity) (hty : ev.event_type = .Ended)
    (hO : originIdx w ev.origin = some i) (hT : findTargetId w ev.target = some t) :
    ((applyEvent w ev)[i]?).map (fun e =>
        e.collisions.map fun c => c.colliding_entities.count t) =
      (w[i]?).map fun e => e.collisions.map fun _ => 0 := by
  have happ : applyEvent w ev = updateOrigin w ev.origin (applyToCollisions ev.event_type t) := by
    unfold applyEvent
    rw [hT, hO]
  rw [happ, hty, updateOrigin_getElem w ev.origin _ i, if_pos hO]
  cases hw : w[i]? with
  | none => rfl
  | some e =>
      cases hc : e.collisions with
      | none => simp [hc]
      | some c =>
          simp [hc, applyToCollisions]
          exact List.count_eq_zero.2 (by simp [List.mem_filter])

/-- C9 witness: an Ended event on a world whose origin holds three copies of the
target. -/
theorem ended_removes_all_occurrences_witness :
    ((applyEvent [⟨0, 5, some ⟨[1, 1, 1], []⟩⟩, ⟨1, 6, none⟩] ⟨.Ended, 5, 6⟩)[0]?).map
        (fun e => e.collisions.map fun c => c.colliding_entities.count 1) =
      (([⟨0, 5, some ⟨[1, 1, 1], []⟩⟩, ⟨1, 6, none⟩] : List EntityEntry)[0]?).map
        fun e => e.collisions.map fun _ => 0 :=
  ended_removes_all_occurrences
    [⟨0, 5, some ⟨[1, 1, 1], []⟩⟩, ⟨1, 6, none⟩] ⟨.Ended, 5, 6⟩ 0 1 rfl rfl rfl

/-- C6: an event whose target or origin does not resolve is dropped silently — the
world is unchanged by it and the loop continues with the remaining events. -/
theorem unresolved_event_dropped (w : List EntityEntry) (ev : CollisionEvent)
    (rest : List CollisionEvent)
    (h : findTargetId w ev.target = none ∨ originIdx w ev.origin = none) :
    applyEvent w ev = w ∧ applyAll (ev :: rest) w = applyAll rest w := by
  have h1 : applyEvent w ev = w := by
    unfold applyEvent
    rcases h with h | h
    · rw [h]
    · rw [h]
      cases findTargetId w ev.target <;> rfl
  refine ⟨h1, ?_⟩
  show applyAll rest (applyEvent w ev) = applyAll rest w
  rw [h1]

/-- C6 witness: an event over the empty world resolves to no entity at all. -/
theorem unresolved_event_dropped_witness :
    applyEvent [] ⟨.Started, 0, 0⟩ = [] ∧
      applyAll [⟨.Started, 0, 0⟩] [] = applyAll [] [] :=
  unresolved_event_dropped [] ⟨.Started, 0, 0⟩ [] (Or.inl rfl)

/-- Entities whose handle is not the origin of any event of the loop keep their entry
unchanged through the event loop. -/
theorem applyAll_untouched (evs : List CollisionEvent) :
    ∀ (w : List EntityEntry) (i : Nat) (e : EntityEntry), w[i]? = some e →
      e.handle ∉ evs.map CollisionEvent.origin → (applyAll evs w)[i]? = some e := by
  induction evs with
  | nil => intro w i e he _; exact he
  | cons ev rest ih =>
      intro w i e he hno
      simp only [List.map_cons, List.mem_cons, not_or] at hno
      obtain ⟨hne, hno2⟩ := hno
      have hstep : (applyEvent w ev)[i]? = some e := by
        unfold applyEvent
        cases hT : findTargetId w ev.target with
        | none => exact he
        | some t =>
            cases hO : originIdx w ev.origin with
            | none => exact he
            | some j =>
                rw [updateOrigin_getElem w ev.origin _ i, hO]
                obtain ⟨e2, he2, hh2, _⟩ := originIdx_handle w ev.origin j hO
                have hji : ¬(some j = some i) := by
                  intro hx
                  obtain rfl := Option.some.inj hx
                  rw [he] at he2
                  obtain rfl := Option.some.inj he2
                  exact hne hh2
                rw [if_neg hji]
                exact he
      exact ih (applyEvent w ev) i e hstep hno2

/-- C10: a run of the collision-update system never changes any entity's id, handle or
`Collisions`-presence; and an entity whose handle is not the origin handle of any event
of the cycle keeps its persistent list unchanged — only its transient list is
cleared. -/
theorem non_origin_entities_unchanged (w : List EntityEntry) (evs : List CollisionEvent)
    (i : Nat) (e : EntityEntry) (he : w[i]? = some e)
    (hno : e.handle ∉ evs.map CollisionEvent.origin) :
    (update_godot_collisions evs w).map entryShape = w.map entryShape ∧
    (update_godot_collisions evs w)[i]? =
      some { e with collisions :=
        e.collisions.map fun c => { c with recent_collisions := [] } } := by
  constructor
  · show (applyAll evs (resetRecent w)).map entryShape = w.map entryShape
    rw [applyAll_shape evs (resetRecent w), resetRecent_shape w]
  · show (applyAll evs (resetRecent w))[i]? = _
    have hr : (resetRecent w)[i]? =
        some { e with collisions :=
          e.collisions.map fun c => { c with recent_collisions := [] } } := by
      simp [resetRecent, List.getElem?_map, he]
    exact applyAll_untouched evs (resetRecent w) i _ hr hno

/-- C10 witness: a one-entity world and an event whose origin handle matches no
entity. -/
theorem non_origin_entities_unchanged_witness :
    (update_godot_collisions [⟨.Started, 6, 5⟩] [⟨0, 5, some ⟨[2], [3]⟩⟩]).map entryShape =
      ([⟨0, 5, some ⟨[2], [3]⟩⟩] : List EntityEntry).map entryShape ∧
    (update_godot_collisions [⟨.Started, 6, 5⟩] [⟨0, 5, some ⟨[2], [3]⟩⟩])[0]? =
      some (⟨0, 5, some ⟨[2], []⟩⟩ : EntityEntry) :=
  non_origin_entities_unchanged [⟨0, 5, some ⟨[2], [3]⟩⟩] [⟨.Started, 6, 5⟩] 0
    ⟨0, 5, some ⟨[2], [3]⟩⟩ rfl (by decide)

end GodotBevy
